import Mathlib

/-
Verification of the belt-wearable ECG deployment pipeline.

Shallow embedding of the pipeline core from the deployment sources:
  * deploy_acquisition.py : marker-based frame reader with resynchronization
  * deploy_segmentation.py : packet unpacking and overlap-aware windowing
  * deploy_filtering.py : filter cascade structure, min-max normalization,
      and the drop-on-error filtering loop
  * deploy_inference.py : safe-default inference and session lifecycle

Bytes are modelled as natural numbers, byte streams as lists.  The serial
port is modelled as a list of pending bytes: `read(k)` takes the first `k`
elements (fewer at end of stream, matching a timed-out serial read).
Floating point values are modelled as exact rationals, with a separate
`FV.nan` constructor standing for any non-finite float (NaN/Inf), which
propagates through arithmetic the way numpy propagates NaN.  The scipy
filter-design and filter-application routines are numerical library calls;
they are kept abstract as fields of a `SciPyEnv` record, and theorems about
the cascade hold for every environment.
-/

namespace ECG

set_option maxRecDepth 100000

/-! ## Frame reader (deploy_acquisition.py) -/

/-- The byte values of the frame marker `b"MARKER"`. -/
def MARKER : List ℕ := [77, 65, 82, 75, 69, 82]

/-- `BUFFER_SIZE = 256` samples per packet. -/
def BUFFER_SIZE : ℕ := 256

/-- `PACKET_DATA_SIZE = BUFFER_SIZE * 6` payload bytes per packet. -/
def PACKET_DATA_SIZE : ℕ := BUFFER_SIZE * 6

/-- The scan loop of `AcquisitionProcess._find_marker`: `buffer` holds every
byte read so far, `rest` is the unread stream.  Before each one-byte read the
loop checks whether the last six buffered bytes equal the marker
(`buffer[-len(MARKER):] == MARKER`); after appending a byte it gives up once
`len(buffer) > 1000`.  Returns the flag together with the unread remainder of
the stream. -/
def findLoop : List ℕ → List ℕ → Bool × List ℕ
  | buffer, rest =>
    if buffer.drop (buffer.length - MARKER.length) = MARKER then (true, rest)
    else
      match rest with
      | [] => (false, [])
      | b :: rest' =>
        if (buffer ++ [b]).length > 1000 then (false, rest')
        else findLoop (buffer ++ [b]) rest'

/-- `AcquisitionProcess._find_marker`: first reads one byte at a time until
six bytes are buffered (failing at end of stream), then runs the scan loop. -/
def findMarker (s : List ℕ) : Bool × List ℕ :=
  if s.length < MARKER.length then (false, [])
  else findLoop (s.take MARKER.length) (s.drop MARKER.length)

/-- `AcquisitionProcess._read_packet`, instrumented with the recursion depth
(number of `_read_packet` activations) and made total with a fuel argument;
`readPacket` below always supplies sufficient fuel.  Returns
`(packet payload, unread stream, call depth)`.  The body mirrors the source:
read six marker bytes; on match read `PACKET_DATA_SIZE` payload bytes and
emit them when complete; on mismatch run `_find_marker` and, on success,
recursively re-invoke `_read_packet`. -/
def readPacketF : ℕ → List ℕ → Option (List ℕ) × List ℕ × ℕ
  | 0, s => (none, s, 0)
  | fuel + 1, s =>
    let marker := s.take MARKER.length
    let s1 := s.drop MARKER.length
    if marker = MARKER then
      let data := s1.take PACKET_DATA_SIZE
      let s2 := s1.drop PACKET_DATA_SIZE
      if data.length = PACKET_DATA_SIZE then (some data, s2, 1) else (none, s2, 1)
    else
      match findMarker s1 with
      | (true, s2) =>
        let r := readPacketF fuel s2
        (r.1, r.2.1, r.2.2 + 1)
      | (false, s2) => (none, s2, 1)

/-- `_read_packet` on a finite pending byte stream.  Each recursive
re-invocation consumes at least twelve bytes of the stream, so a fuel of
`s.length + 1` is never exhausted (`readPacketF_fuel_irrel`). -/
def readPacket (s : List ℕ) : Option (List ℕ) × List ℕ × ℕ :=
  readPacketF (s.length + 1) s

/-! ## Segmentation windower (deploy_segmentation.py) -/

/-- `SEGMENT_SIZE = 1024` core samples per window. -/
def SEGMENT_SIZE : ℕ := 1024

/-- `OVERLAP_SIZE = 256` overlap samples. -/
def OVERLAP_SIZE : ℕ := 256

/-- `EXTENDED_SEGMENT_SIZE = SEGMENT_SIZE + 2 * OVERLAP_SIZE`. -/
def EXTENDED_SEGMENT_SIZE : ℕ := SEGMENT_SIZE + 2 * OVERLAP_SIZE

/-- Python slice `l[i:j]`. -/
def pySlice {α : Type} (l : List α) (i j : ℕ) : List α :=
  (l.take j).drop i

/-- `SegmentationProcess._unpack_packet`: split the payload into 6-byte
little-endian `(timestamp_ms : u32, adc_value : u16)` pairs. -/
def unpackPacket : List ℕ → List (ℕ × ℕ)
  | b0 :: b1 :: b2 :: b3 :: b4 :: b5 :: rest =>
    (b0 + 256 * b1 + 65536 * b2 + 16777216 * b3, b4 + 256 * b5) :: unpackPacket rest
  | _ => []

/-- The segment dictionary built by `SegmentationProcess._create_segment`.
`extended_timestamp_ms` / `extended_adc_value` are the two parallel arrays of
the extended window, `timestamp_ms` the core timestamps. -/
structure Segment where
  segment_id : ℕ
  extended_timestamp_ms : List ℕ
  extended_adc_value : List ℕ
  timestamp_ms : List ℕ
  core_start_idx : ℕ
  core_end_idx : ℕ
  start_time : ℕ
  end_time : ℕ
  sample_count : ℕ
deriving DecidableEq, Inhabited

/-- The mutable state of `SegmentationProcess`: the sample buffer, the
carried overlap buffer and the segment counter. -/
structure WState where
  segBuf : List (ℕ × ℕ)
  ovBuf : List (ℕ × ℕ)
  segCount : ℕ
deriving DecidableEq, Inhabited

/-- `SegmentationProcess._create_segment`: build the extended window as
`overlap_buffer + segment_buffer[:SEGMENT_SIZE + OVERLAP_SIZE]`, slice the
core out of it, then advance `overlap_buffer` to
`segment_buffer[SEGMENT_SIZE : SEGMENT_SIZE + OVERLAP_SIZE]` and drop the
consumed `SEGMENT_SIZE` samples from the buffer. -/
def createSegment (st : WState) : Segment × WState :=
  let extended := st.ovBuf ++ st.segBuf.take (SEGMENT_SIZE + OVERLAP_SIZE)
  let extendedTs := extended.map Prod.fst
  let extendedAdc := extended.map Prod.snd
  let coreStart := st.ovBuf.length
  let coreEnd := coreStart + SEGMENT_SIZE
  let coreTs := pySlice extendedTs coreStart coreEnd
  let seg : Segment :=
    { segment_id := st.segCount
      extended_timestamp_ms := extendedTs
      extended_adc_value := extendedAdc
      timestamp_ms := coreTs
      core_start_idx := coreStart
      core_end_idx := coreEnd
      start_time := coreTs.headI
      end_time := coreTs.getLastD 0
      sample_count := SEGMENT_SIZE }
  (seg,
    { segBuf := st.segBuf.drop SEGMENT_SIZE
      ovBuf := pySlice st.segBuf SEGMENT_SIZE (SEGMENT_SIZE + OVERLAP_SIZE)
      segCount := st.segCount + 1 })

/-- One iteration of `SegmentationProcess.segmentation_loop` for an incoming
packet: unpack, extend the buffer, and cut a segment once the buffer holds at
least `SEGMENT_SIZE + OVERLAP_SIZE` samples. -/
def stepPacket (acc : WState × List Segment) (packetData : List ℕ) :
    WState × List Segment :=
  let samples := unpackPacket packetData
  let st : WState := { acc.1 with segBuf := acc.1.segBuf ++ samples }
  if SEGMENT_SIZE + OVERLAP_SIZE ≤ st.segBuf.length then
    let r := createSegment st
    (r.2, acc.2 ++ [r.1])
  else (st, acc.2)

/-- The segmentation loop run over a finite list of packet payloads, from the
initial empty state; returns the final state and the emitted segments in
emission order. -/
def runWindower (ps : List (List ℕ)) : WState × List Segment :=
  ps.foldl stepPacket (⟨[], [], 0⟩, [])

/-! Canonical closed forms used to state the windower characterization.
`sampleStream ps` is the decoded sample stream; after `n` packets the loop
has emitted `wEmit n` segments. -/

/-- All samples decoded from a packet list, in arrival order. -/
def sampleStream (ps : List (List ℕ)) : List (ℕ × ℕ) :=
  (ps.map unpackPacket).flatten

/-- Number of segments emitted after `n` packets of 256 samples:
the i-th cut (1-based) happens on packet `4*i + 1`. -/
def wEmit (n : ℕ) : ℕ := (n - 1) / 4

/-- The overlap buffer carried after `e` cuts: samples
`[1024*e, 1024*e + 256)` of the stream (empty before the first cut). -/
def expOv (S : List (ℕ × ℕ)) (e : ℕ) : List (ℕ × ℕ) :=
  if e = 0 then [] else (S.drop (1024 * e)).take 256

/-- The windower state at the moment segment `i` is cut. -/
def expCutState (S : List (ℕ × ℕ)) (i : ℕ) : WState :=
  ⟨(S.drop (1024 * i)).take 1280, expOv S i, i⟩

/-- The segment emitted with `segment_id = i`, in closed form. -/
def expSeg (S : List (ℕ × ℕ)) (i : ℕ) : Segment :=
  (createSegment (expCutState S i)).1

/-! ## Float values with a non-finite marker -/

/-- A numpy double: either an exact finite value or a non-finite value
(NaN/Inf), which propagates through arithmetic. -/
inductive FV
  | num (q : ℚ)
  | nan
deriving DecidableEq, Inhabited

/-- Addition; non-finite operands propagate. -/
def FV.add : FV → FV → FV
  | num a, num b => num (a + b)
  | _, _ => nan

/-- Subtraction; non-finite operands propagate. -/
def FV.sub : FV → FV → FV
  | num a, num b => num (a - b)
  | _, _ => nan

/-- Division; division by zero is non-finite, non-finite operands
propagate. -/
def FV.div : FV → FV → FV
  | num a, num b => if b = 0 then nan else num (a / b)
  | _, _ => nan

/-- `np.minimum`-style minimum: NaN propagates. -/
def FV.fmin : FV → FV → FV
  | num a, num b => num (min a b)
  | _, _ => nan

/-- `np.maximum`-style maximum: NaN propagates. -/
def FV.fmax : FV → FV → FV
  | num a, num b => num (max a b)
  | _, _ => nan

/-- `np.min` over an array (the empty case never occurs in the pipeline). -/
def listMinF : List FV → FV
  | [] => FV.num 0
  | a :: t => t.foldl FV.fmin a

/-- `np.max` over an array (the empty case never occurs in the pipeline). -/
def listMaxF : List FV → FV
  | [] => FV.num 0
  | a :: t => t.foldl FV.fmax a

/-! ## Filter cascade (deploy_filtering.py) -/

/-- `1e-8`, the epsilon of the min-max normalization (idealized to the exact
rational the source text denotes). -/
def EPS : ℚ := 1 / 100000000

/-- `FilteringProcess.normalize_segment`:
`(x - min) / (max - min + 1e-8)` elementwise. -/
def normalizeSegment (l : List FV) : List FV :=
  let mn := listMinF l
  let mx := listMaxF l
  l.map fun x => (x.sub mn).div ((mx.sub mn).add (FV.num EPS))

/-- `SAMPLE_RATE_HZ = 360`. -/
def SAMPLE_RATE_HZ : ℚ := 360

/-- `NOTCH_FREQ_HZ = 61.0`. -/
def NOTCH_FREQ_HZ : ℚ := 61

/-- `NOTCH_Q = 10.0`. -/
def NOTCH_Q : ℚ := 10

/-- `FIR_PASSBAND_HZ = 150`. -/
def FIR_PASSBAND_HZ : ℚ := 150

/-- `FIR_STOPBAND_HZ = 180`. -/
def FIR_STOPBAND_HZ : ℚ := 180

/-- `FIR_STOPBAND_ATTEN_DB = 40` (kept a natural number so that the weight
`10 ** (40 / 20) = 100` is exact). -/
def FIR_STOPBAND_ATTEN_DB : ℕ := 40

/-- `HPF_PASSBAND_HZ = 1.0`. -/
def HPF_PASSBAND_HZ : ℚ := 1

/-- `HPF_STOPBAND_HZ = 0.05`. -/
def HPF_STOPBAND_HZ : ℚ := 1 / 20

/-- `HPF_PASSBAND_RIPPLE_DB = 0.5`. -/
def HPF_PASSBAND_RIPPLE_DB : ℚ := 1 / 2

/-- `HPF_STOPBAND_ATTEN_DB = 40`. -/
def HPF_STOPBAND_ATTEN_DB : ℚ := 40

/-- The scipy routines used by `FilteringProcess`, kept abstract: each filter
design returns coefficient vectors `(b, a)` (or may fail, modelling a raised
exception), and `filtfilt b a x` is scipy's zero-phase forward-backward
application of the filter `(b, a)` to the signal `x`.  `remezNumtaps a w`
abstracts the analytic tap-count estimate
`int(np.ceil((atten - 7.95) / (2.285 * width * np.pi))) + 1`, whose value is
an irrational-arithmetic constant. -/
structure SciPyEnv where
  iirnotch : ℚ → ℚ → ℚ → Except String (List ℚ × List ℚ)
  remez : ℕ → List ℚ → List ℚ → ℚ → List ℚ → Except String (List ℚ)
  ellipord : ℚ → ℚ → ℚ → ℚ → Except String (ℕ × ℚ)
  ellip : ℕ → ℚ → ℚ → ℚ → Except String (List ℚ × List ℚ)
  filtfilt : List ℚ → List ℚ → List FV → Except String (List FV)
  remezNumtaps : ℚ → ℚ → ℕ

/-- `FilteringProcess.apply_notch_filter`: design `iirnotch(61.0, 10.0, 360)`
and apply it zero-phase. -/
def applyNotchFilter (env : SciPyEnv) (x : List FV) : Except String (List FV) := do
  let ba ← env.iirnotch NOTCH_FREQ_HZ NOTCH_Q SAMPLE_RATE_HZ
  env.filtfilt ba.1 ba.2 x

/-- `FilteringProcess.apply_fir_lowpass`: equiripple design over bands
`[0, 150, 180, nyquist]`, desired `[1, 0]`, weights `[1, 10**(40/20)]`, tap
count rounded up to odd, applied zero-phase with denominator `1`. -/
def applyFirLowpass (env : SciPyEnv) (x : List FV) : Except String (List FV) := do
  let nyquist : ℚ := SAMPLE_RATE_HZ / 2
  let bands : List ℚ := [0, FIR_PASSBAND_HZ, FIR_STOPBAND_HZ, nyquist]
  let desired : List ℚ := [1, 0]
  let passbandWeight : ℚ := 1
  let stopbandWeight : ℚ := (10 : ℚ) ^ (FIR_STOPBAND_ATTEN_DB / 20)
  let width : ℚ := (FIR_STOPBAND_HZ - FIR_PASSBAND_HZ) / nyquist
  let n0 := env.remezNumtaps (FIR_STOPBAND_ATTEN_DB : ℚ) width
  let numtaps := if n0 % 2 = 0 then n0 + 1 else n0
  let b ← env.remez numtaps bands desired SAMPLE_RATE_HZ [passbandWeight, stopbandWeight]
  env.filtfilt b [1] x

/-- `FilteringProcess.apply_iir_highpass`: minimum-order elliptic high-pass
with edges `1.0 / 0.05` Hz, ripple `0.5` dB, attenuation `40` dB, applied
zero-phase. -/
def applyIirHighpass (env : SciPyEnv) (x : List FV) : Except String (List FV) := do
  let nyquist : ℚ := SAMPLE_RATE_HZ / 2
  let wp := HPF_PASSBAND_HZ / nyquist
  let ws := HPF_STOPBAND_HZ / nyquist
  let nw ← env.ellipord wp ws HPF_PASSBAND_RIPPLE_DB HPF_STOPBAND_ATTEN_DB
  let ba ← env.ellip nw.1 HPF_PASSBAND_RIPPLE_DB HPF_STOPBAND_ATTEN_DB nw.2
  env.filtfilt ba.1 ba.2 x

/-- `FilteringProcess.apply_filtering_pipeline`: notch, then FIR low-pass,
then elliptic high-pass, on the float-converted signal. -/
def applyFilteringPipeline (env : SciPyEnv) (sig : List FV) :
    Except String (List FV) := do
  let f1 ← applyNotchFilter env sig
  let f2 ← applyFirLowpass env f1
  applyIirHighpass env f2

/-- The processed-segment dictionary produced by
`FilteringProcess.process_segment`. -/
structure ProcessedSegment where
  segment_id : ℕ
  timestamp_ms : List ℕ
  start_time : ℕ
  end_time : ℕ
  raw_signal : List ℕ
  filtered_signal : List FV
  processed_signal : List FV
  sample_count : ℕ
deriving DecidableEq, Inhabited

/-- `FilteringProcess.process_segment`: filter the full extended window,
slice the core region `[core_start_idx, core_end_idx)` out of both the
filtered and the raw arrays, normalize the filtered core only, and pass the
raw core through unscaled. -/
def processSegment (env : SciPyEnv) (seg : Segment) :
    Except String ProcessedSegment := do
  let filteredExtended ← applyFilteringPipeline env
    (seg.extended_adc_value.map FV.num)
  let filteredCore := pySlice filteredExtended seg.core_start_idx seg.core_end_idx
  let rawCore := pySlice seg.extended_adc_value seg.core_start_idx seg.core_end_idx
  let normalized := normalizeSegment filteredCore
  return {
      segment_id := seg.segment_id
      timestamp_ms := seg.timestamp_ms
      start_time := seg.start_time
      end_time := seg.end_time
      raw_signal := rawCore
      filtered_signal := filteredCore
      processed_signal := normalized
      sample_count := seg.sample_count }

/-- `FilteringProcess.filtering_loop` over a finite input queue: each segment
is processed; a processing failure is reported (counted) and the segment is
dropped, and the loop continues with the next one.  Returns the forwarded
segments in order together with the number of reported errors. -/
def filteringLoop (env : SciPyEnv) (segs : List Segment) :
    List ProcessedSegment × ℕ :=
  segs.foldl
    (fun acc seg =>
      match processSegment env seg with
      | .ok p => (acc.1 ++ [p], acc.2)
      | .error _ => (acc.1, acc.2 + 1))
    ([], 0)

/-! ## Inference stage (deploy_inference.py) -/

/-- `RHYTHM_CLASSES` lookup table. -/
def RHYTHM_CLASSES : List (ℕ × String) :=
  [(0, "NSR"), (1, "AFIB"), (2, "PVC"), (3, "LBBB")]

/-- The classification dictionary returned by `run_inference`. -/
structure Prediction where
  cls : ℕ
  label : String
  confidence : ℚ
deriving DecidableEq, Inhabited

/-- The safe default classification: class 0, label `NSR`, confidence 0. -/
def defaultPrediction : Prediction := ⟨0, "NSR", 0⟩

/-- `np.argmax` helper: first index of the running maximum. -/
def argmaxAux : List ℚ → ℕ → ℕ → ℚ → ℕ
  | [], _, bi, _ => bi
  | v :: rest, i, bi, bv =>
    if bv < v then argmaxAux rest (i + 1) i v else argmaxAux rest (i + 1) bi bv

/-- `np.argmax` (errors on an empty array). -/
def argmaxIdx : List ℚ → Option ℕ
  | [] => none
  | v :: rest => some (argmaxAux rest 1 0 v)

/-- `np.max` over the output vector. -/
def listMaxQ : List ℚ → ℚ
  | [] => 0
  | v :: rest => rest.foldl max v

/-- `InferenceProcess.run_inference`.  The TFLite interpreter is modelled as
an optional function from the processed signal to the output vector, which
may fail (a raised exception).  A missing interpreter returns the default
classification immediately; any failure inside the `try` block — the
1024-sample reshape, the invocation itself, or the `RHYTHM_CLASSES[...]`
lookup — is caught and also yields the default classification. -/
def runInference (itp : Option (List FV → Except String (List ℚ)))
    (sig : List FV) : Prediction :=
  match itp with
  | none => defaultPrediction
  | some invokeModel =>
    let attempt : Except String Prediction :=
      if sig.length = 1024 then
        match invokeModel sig with
        | .error e => .error e
        | .ok output =>
          match argmaxIdx output with
          | none => .error "argmax of empty output"
          | some c =>
            match RHYTHM_CLASSES.lookup c with
            | none => .error "KeyError"
            | some lbl => .ok ⟨c, lbl, listMaxQ output⟩
      else .error "cannot reshape"
    match attempt with
    | .ok p => p
    | .error _ => defaultPrediction

/-- An event observed by `InferenceProcess.inference_loop`: a control token
on the control queue, or a dequeued processed segment (identified by its
id). -/
inductive InfEvent
  | stop
  | seg (id : ℕ)
deriving DecidableEq

/-- The session-related state of `InferenceProcess`: whether a session is
active, a clock supplying fresh timestamps for session names, the open
session's `(name, written segment ids)`, and the closed sessions. -/
structure InfState where
  active : Bool
  clock : ℕ
  current : Option (ℕ × List ℕ)
  closed : List (ℕ × List ℕ)
deriving DecidableEq, Inhabited

/-- One iteration of `inference_loop`.  A `STOP_SESSION` token closes the
open session (its files are finalized) when one is active and is otherwise
ignored.  A dequeued segment first opens a brand-new session named from the
current time when no session is active, then is written to the open
session's files.  The clock advances every iteration. -/
def stepInf (st : InfState) : InfEvent → InfState
  | .stop =>
    if st.active then
      { active := false
        clock := st.clock + 1
        current := none
        closed := st.closed ++ (match st.current with
          | some s => [s]
          | none => []) }
    else { st with clock := st.clock + 1 }
  | .seg i =>
    let st' := if st.active then st
      else { st with active := true, current := some (st.clock, []) }
    { st' with
      clock := st.clock + 1
      current := match st'.current with
        | some nw => some (nw.1, nw.2 ++ [i])
        | none => none }

/-- The initial inference-loop state: no session active. -/
def initialInfState : InfState := ⟨false, 0, none, []⟩

/-- The inference loop run over a finite observed event sequence. -/
def runInfLoop (evs : List InfEvent) : InfState :=
  evs.foldl stepInf initialInfState

/-! ## Concrete inputs used by witnesses and counterexamples -/

/-- Six garbage bytes, then the marker, then a valid all-zero payload of
`PACKET_DATA_SIZE` bytes: the resynchronization scenario of the spec with
garbage well inside the 1000-byte budget. -/
def c1Stream : List ℕ :=
  List.replicate 6 0 ++ MARKER ++ List.replicate PACKET_DATA_SIZE 0

/-- A 12-byte corruption unit: six garbage bytes followed by the marker.
Each such unit makes `_read_packet` mis-read six bytes, resynchronize, and
re-invoke itself recursively once. -/
def gadgetUnit : List ℕ := List.replicate 6 0 ++ MARKER

/-- `n` corruption units in a row. -/
def gadgets : ℕ → List ℕ
  | 0 => []
  | n + 1 => gadgetUnit ++ gadgets n

/-- A packet payload of 1536 zero bytes (256 samples). -/
def zeroPkt : List ℕ := List.replicate 1536 0

/-- A scipy environment in which zero-phase filtering silently returns a
non-finite array (as scipy does for degenerate coefficient vectors, without
raising), while every design step succeeds. -/
def envNaN : SciPyEnv :=
  { iirnotch := fun _ _ _ => .ok ([], [])
    remez := fun _ _ _ _ _ => .ok []
    ellipord := fun _ _ _ _ => .ok (0, 0)
    ellip := fun _ _ _ _ => .ok ([], [])
    filtfilt := fun _ _ x => .ok (x.map fun _ => FV.nan)
    remezNumtaps := fun _ _ => 0 }

/-- A well-formed 1536-sample extended window, as handed to the filtering
stage. -/
def segNaN : Segment :=
  { segment_id := 0
    extended_timestamp_ms := List.range 1536
    extended_adc_value := List.replicate 1536 0
    timestamp_ms := List.range 1024
    core_start_idx := 256
    core_end_idx := 1280
    start_time := 0
    end_time := 1023
    sample_count := 1024 }

/-! ## Frame reader lemmas -/

/-- The resynchronization scan never invents bytes: the unread remainder it
returns is a suffix of what it was given. -/
theorem findLoop_rest_length :
    ∀ (rest buffer : List ℕ), ((findLoop buffer rest).2).length ≤ rest.length := by
  intro rest
  induction rest with
  | nil =>
    intro buffer
    rw [findLoop]
    by_cases h : buffer.drop (buffer.length - MARKER.length) = MARKER <;> simp [h]
  | cons b rest' ih =>
    intro buffer
    rw [findLoop]
    split
    · simp
    · split
      · simp
      · exact le_trans (ih _) (by simp)

/-- A successful `_find_marker` consumes at least the six bytes of the found
marker. -/
theorem findMarker_true_length {s s2 : List ℕ}
    (h : findMarker s = (true, s2)) : s2.length + 6 ≤ s.length := by
  unfold findMarker at h
  by_cases hl : s.length < MARKER.length
  · simp [hl] at h
  · rw [if_neg hl] at h
    have h1 : ((findLoop (s.take MARKER.length) (s.drop MARKER.length)).2).length
        ≤ (s.drop MARKER.length).length := findLoop_rest_length _ _
    rw [h] at h1
    simp only [List.length_drop] at h1
    simp only [MARKER, List.length_cons, List.length_nil] at hl h1
    omega

/-- With fuel strictly above the stream length the fuel never runs out, so
any two adequate fuels give the same result. -/
theorem readPacketF_fuel_irrel :
    ∀ (N : ℕ) (s : List ℕ) (f g : ℕ), s.length ≤ N → s.length < f →
      s.length < g → readPacketF f s = readPacketF g s := by
  intro N
  induction N with
  | zero =>
    intro s f g hN hf hg
    obtain ⟨f', rfl⟩ : ∃ f', f = f' + 1 := ⟨f - 1, by omega⟩
    obtain ⟨g', rfl⟩ : ∃ g', g = g' + 1 := ⟨g - 1, by omega⟩
    have hs : s = [] := List.length_eq_zero.mp (by omega)
    subst hs
    rfl
  | succ N ih =>
    intro s f g hN hf hg
    obtain ⟨f', rfl⟩ : ∃ f', f = f' + 1 := ⟨f - 1, by omega⟩
    obtain ⟨g', rfl⟩ : ∃ g', g = g' + 1 := ⟨g - 1, by omega⟩
    simp only [readPacketF]
    by_cases hm : s.take MARKER.length = MARKER
    · simp [hm]
    · simp only [hm, if_false]
      rcases hfm : findMarker (s.drop MARKER.length) with ⟨b, s2⟩
      cases b
      · rfl
      · have hlen : s2.length + 6 ≤ (s.drop MARKER.length).length :=
          findMarker_true_length hfm
        simp only [List.length_drop, MARKER, List.length_cons,
          List.length_nil] at hlen
        have := ih s2 f' g' (by omega) (by omega) (by omega)
        simp only [this]

/-- A stream beginning directly with the marker resynchronizes immediately,
consuming exactly the marker. -/
theorem findMarker_after_marker (s : List ℕ) :
    findMarker (MARKER ++ s) = (true, s) := by
  unfold findMarker
  have hnl : ¬((MARKER ++ s).length < MARKER.length) := by
    simp only [List.length_append, MARKER, List.length_cons, List.length_nil]
    omega
  rw [if_neg hnl, List.take_append_of_le_length le_rfl,
    List.drop_append_of_le_length le_rfl, List.take_length, List.drop_length,
    List.nil_append, findLoop.eq_def]
  exact if_pos (by decide)

/-- One unfolding of `_read_packet` across a corruption unit: the six
garbage bytes are mis-read as a marker, `_find_marker` consumes the real
marker, and `_read_packet` re-invokes itself on the rest of the stream. -/
theorem readPacketF_gadget_step (f : ℕ) (s : List ℕ) :
    readPacketF (f + 1) (gadgetUnit ++ s)
      = (let r := readPacketF f s; (r.1, r.2.1, r.2.2 + 1)) := by
  have htake : (gadgetUnit ++ s).take MARKER.length = List.replicate 6 0 := by
    simp [gadgetUnit, MARKER]
  have hdrop : (gadgetUnit ++ s).drop MARKER.length = MARKER ++ s := by
    simp [gadgetUnit, MARKER]
  simp only [readPacketF, htake, hdrop, findMarker_after_marker]
  rw [if_neg (by decide)]

/-- Each corruption unit adds exactly one recursive `_read_packet`
activation. -/
theorem readPacket_gadget_depth (s : List ℕ) :
    (readPacket (gadgetUnit ++ s)).2.2 = (readPacket s).2.2 + 1 := by
  unfold readPacket
  have hlen : (gadgetUnit ++ s).length = s.length + 12 := by
    simp [gadgetUnit, MARKER]
  rw [hlen, readPacketF_gadget_step (s.length + 12) s]
  have hirrel := readPacketF_fuel_irrel s.length s (s.length + 12)
    (s.length + 1) le_rfl (by omega) (by omega)
  simp only [hirrel]

/-- `n` corruption units force call depth `n + 1`. -/
theorem readPacket_gadgets_depth : ∀ n : ℕ, (readPacket (gadgets n)).2.2 = n + 1 := by
  intro n
  induction n with
  | zero => rfl
  | succ n ih =>
    show (readPacket (gadgetUnit ++ gadgets n)).2.2 = n + 1 + 1
    rw [readPacket_gadget_depth, ih]

/-- C1: on a stream of six garbage bytes, the marker, and a valid all-zero
1536-byte payload — garbage far inside the 1000-byte resynchronization
budget — `_read_packet` emits no packet.  `_find_marker` does consume the
marker, but the recursive `_read_packet` then reads the payload's first six
bytes expecting a second marker, fails, re-scans the payload for a marker
and exhausts the budget inside it, returning `None` with 529 payload bytes
still unread and a call depth of 2.  The spec instead requires framing to
resume immediately after the found marker and the payload packet to be
emitted. -/
theorem c1_resync_never_recovers :
    readPacket c1Stream = (none, List.replicate 529 0, 2) := by decide

/-- C8 (counterexample): the claim that `_read_packet`'s call depth is
bounded by a constant independent of the stream is false — no such constant
exists, because each 12-byte corruption unit adds one recursive
activation. -/
theorem c8_depth_not_bounded :
    ¬∃ C : ℕ, ∀ s : List ℕ, (readPacket s).2.2 ≤ C := by
  rintro ⟨C, hC⟩
  have h := hC (gadgets (C + 1))
  rw [readPacket_gadgets_depth] at h
  omega

/-- C8 (amended): packet reading is implemented recursively —
`_read_packet` re-invokes itself after every successful resynchronization —
and its call depth grows without bound: for every candidate constant `C`
there is a stream (C corruption units, each six garbage bytes followed by
the marker) forcing depth greater than `C`. -/
theorem c8_depth_unbounded_amended :
    ∀ C : ℕ, ∃ s : List ℕ, C < (readPacket s).2.2 := by
  intro C
  exact ⟨gadgets C, by rw [readPacket_gadgets_depth]; omega⟩

/-! ## Windower characterization -/

/-- `_unpack_packet` yields one sample per six payload bytes. -/
theorem unpackPacket_length :
    ∀ bs : List ℕ, (unpackPacket bs).length = bs.length / 6 := by
  have key : ∀ (N : ℕ) (bs : List ℕ), bs.length ≤ N →
      (unpackPacket bs).length = bs.length / 6 := by
    intro N
    induction N with
    | zero =>
      intro bs h
      have : bs = [] := List.length_eq_zero.mp (by omega)
      subst this
      rfl
    | succ N ih =>
      intro bs h
      rcases bs with _ | ⟨a, _ | ⟨b, _ | ⟨c, _ | ⟨d, _ | ⟨e, _ | ⟨f, rest⟩⟩⟩⟩⟩⟩ <;>
        simp only [unpackPacket, List.length_cons, List.length_nil]
      rw [ih rest (by simp at h; omega)]
      omega
  exact fun bs => key bs.length bs le_rfl

/-- Total decoded sample count for packets of 1536 bytes each. -/
theorem sampleStream_length (ps : List (List ℕ))
    (h : ∀ p ∈ ps, p.length = 1536) :
    (sampleStream ps).length = 256 * ps.length := by
  induction ps with
  | nil => rfl
  | cons p ps ih =>
    have hp : p.length = 1536 := h p (by simp)
    have hps : ∀ q ∈ ps, q.length = 1536 := fun q hq => h q (by simp [hq])
    simp only [sampleStream, List.map_cons, List.flatten_cons, List.length_append,
      List.length_cons]
    rw [unpackPacket_length, hp]
    have := ih hps
    simp only [sampleStream] at this
    rw [this]
    ring

/-- Appending samples beyond a slice does not change the slice. -/
theorem sliceStable {α : Type} (S p : List α) (k m : ℕ)
    (h : k + m ≤ S.length) :
    ((S ++ p).drop k).take m = (S.drop k).take m := by
  rw [List.drop_append_of_le_length (by omega),
    List.take_append_of_le_length (by simp; omega)]

/-- The carried overlap only looks at samples `[1024*e, 1024*e + 256)`. -/
theorem expOv_append (S p : List (ℕ × ℕ)) (e : ℕ)
    (h : e = 0 ∨ 1024 * e + 256 ≤ S.length) :
    expOv (S ++ p) e = expOv S e := by
  unfold expOv
  rcases Nat.eq_zero_or_pos e with he | he
  · simp [he]
  · rcases h with h | h
    · omega
    · rw [if_neg (by omega), if_neg (by omega), sliceStable S p _ _ h]

/-- Segment `i` only looks at samples `[1024*i - 256, 1024*i + 1280)`. -/
theorem expSeg_append (S p : List (ℕ × ℕ)) (i : ℕ)
    (h : 1024 * i + 1280 ≤ S.length) :
    expSeg (S ++ p) i = expSeg S i := by
  unfold expSeg expCutState
  rw [sliceStable S p _ _ (by omega), expOv_append S p i (by omega)]

/-- Closed-form characterization of the segmentation loop: after `n` packets
of 256 samples the loop has emitted segments `0 .. (n-1)/4 - 1` in order,
its buffer holds the not-yet-consumed suffix of the decoded stream, and the
carried overlap is the 256-sample slice starting at the next core. -/
theorem windower_char (ps : List (List ℕ)) (h : ∀ p ∈ ps, p.length = 1536) :
    runWindower ps =
      (⟨(sampleStream ps).drop (1024 * wEmit ps.length),
        expOv (sampleStream ps) (wEmit ps.length),
        wEmit ps.length⟩,
       (List.range (wEmit ps.length)).map (expSeg (sampleStream ps))) := by
  induction ps using List.reverseRecOn with
  | nil => rfl
  | append_singleton ps p ih =>
    have hp : p.length = 1536 := h p (by simp)
    have hps : ∀ q ∈ ps, q.length = 1536 := fun q hq => h q (by simp [hq])
    have hrun : runWindower (ps ++ [p]) = stepPacket (runWindower ps) p := by
      simp [runWindower]
    have hq : (unpackPacket p).length = 256 := by
      rw [unpackPacket_length, hp]
    have hS : (sampleStream ps).length = 256 * ps.length :=
      sampleStream_length ps hps
    have hSS : sampleStream (ps ++ [p]) = sampleStream ps ++ unpackPacket p := by
      simp [sampleStream]
    have hlen' : (ps ++ [p]).length = ps.length + 1 := by simp
    rw [hrun, ih hps, hlen', hSS]
    have hE : wEmit ps.length = (ps.length - 1) / 4 := rfl
    have hE' : wEmit (ps.length + 1) = ps.length / 4 := rfl
    have hEb : 4 * wEmit ps.length ≤ ps.length - 1 ∧
        ps.length - 1 < 4 * wEmit ps.length + 4 := by
      rw [hE]
      omega
    have h1024 : 1024 * wEmit ps.length ≤ 256 * ps.length := by omega
    have hdropq : (sampleStream ps ++ unpackPacket p).drop (1024 * wEmit ps.length)
        = (sampleStream ps).drop (1024 * wEmit ps.length) ++ unpackPacket p :=
      List.drop_append_of_le_length (by omega)
    have hblen : ((sampleStream ps).drop (1024 * wEmit ps.length) ++ unpackPacket p).length
        = 256 * ps.length - 1024 * wEmit ps.length + 256 := by
      simp [hq, hS]
    simp only [stepPacket, SEGMENT_SIZE, OVERLAP_SIZE]
    by_cases hcut : 1024 + 256 ≤
        ((sampleStream ps).drop (1024 * wEmit ps.length) ++ unpackPacket p).length
    · -- a segment is cut on this packet
      rw [if_pos hcut]
      rw [hblen] at hcut
      have hn4 : ps.length = 4 * wEmit ps.length + 4 := by omega
      have hEcut : wEmit (ps.length + 1) = wEmit ps.length + 1 := by
        rw [hE', hE]
        rw [hE] at hn4
        omega
      have hSq : (sampleStream ps ++ unpackPacket p).length = 256 * ps.length + 256 := by
        simp [hq, hS]
      have hBtake :
          ((sampleStream ps ++ unpackPacket p).drop (1024 * wEmit ps.length)).take 1280
          = (sampleStream ps ++ unpackPacket p).drop (1024 * wEmit ps.length) := by
        apply List.take_of_length_le
        simp only [List.length_drop, hSq]
        omega
      have hov : expOv (sampleStream ps) (wEmit ps.length)
          = expOv (sampleStream ps ++ unpackPacket p) (wEmit ps.length) := by
        refine (expOv_append _ _ _ (Or.inr ?_)).symm
        rw [hS]
        omega
      have hst : (⟨(sampleStream ps).drop (1024 * wEmit ps.length) ++ unpackPacket p,
            expOv (sampleStream ps) (wEmit ps.length), wEmit ps.length⟩ : WState)
          = expCutState (sampleStream ps ++ unpackPacket p) (wEmit ps.length) := by
        rw [expCutState, hBtake, hdropq, ← hov]
      rw [hst]
      have hfst : (createSegment
            (expCutState (sampleStream ps ++ unpackPacket p) (wEmit ps.length))).1
          = expSeg (sampleStream ps ++ unpackPacket p) (wEmit ps.length) := rfl
      have hBdrop :
          ((sampleStream ps ++ unpackPacket p).drop (1024 * wEmit ps.length)).drop 1024
          = (sampleStream ps ++ unpackPacket p).drop (1024 * (wEmit ps.length + 1)) := by
        rw [List.drop_drop]
        congr 1
      have hOv1 : expOv (sampleStream ps ++ unpackPacket p) (wEmit ps.length + 1)
          = (sampleStream ps ++ unpackPacket p).drop (1024 * (wEmit ps.length + 1)) := by
        rw [expOv, if_neg (Nat.succ_ne_zero _)]
        apply List.take_of_length_le
        simp only [List.length_drop, hSq]
        omega
      have hsnd : (createSegment
            (expCutState (sampleStream ps ++ unpackPacket p) (wEmit ps.length))).2
          = ⟨(sampleStream ps ++ unpackPacket p).drop (1024 * (wEmit ps.length + 1)),
             expOv (sampleStream ps ++ unpackPacket p) (wEmit ps.length + 1),
             wEmit ps.length + 1⟩ := by
        simp only [createSegment, expCutState, SEGMENT_SIZE, OVERLAP_SIZE, pySlice,
          List.take_take, min_self, hBtake, hBdrop]
        rw [hOv1]
      have hsegs : (List.range (wEmit ps.length)).map (expSeg (sampleStream ps))
          = (List.range (wEmit ps.length)).map
              (expSeg (sampleStream ps ++ unpackPacket p)) := by
        refine List.map_congr_left fun i hi => ?_
        have hi' : i < wEmit ps.length := List.mem_range.mp hi
        refine (expSeg_append _ _ _ ?_).symm
        rw [hS]
        omega
      rw [hfst, hsnd, hEcut, hsegs, List.range_succ, List.map_append,
        List.map_singleton]
    · -- no segment is cut on this packet
      rw [if_neg hcut]
      rw [hblen] at hcut
      have hEno : wEmit (ps.length + 1) = wEmit ps.length := by
        rw [hE', hE]
        rw [hE] at hcut
        omega
      rw [hEno, hdropq]
      have hov : expOv (sampleStream ps) (wEmit ps.length)
          = expOv (sampleStream ps ++ unpackPacket p) (wEmit ps.length) := by
        refine (expOv_append _ _ _ ?_).symm
        rcases Nat.eq_zero_or_pos (wEmit ps.length) with h0 | h0
        · exact Or.inl h0
        · right
          rw [hS]
          omega
      have hsegs : (List.range (wEmit ps.length)).map (expSeg (sampleStream ps))
          = (List.range (wEmit ps.length)).map
              (expSeg (sampleStream ps ++ unpackPacket p)) := by
        refine List.map_congr_left fun i hi => ?_
        have hi' : i < wEmit ps.length := List.mem_range.mp hi
        refine (expSeg_append _ _ _ ?_).symm
        rw [hS]
        omega
      rw [hov, hsegs]

/-! ## Emitted segment fields in closed form -/

/-- The adc array of emitted segment `i`. -/
theorem expSeg_adc (S : List (ℕ × ℕ)) (i : ℕ) :
    (expSeg S i).extended_adc_value
      = (expOv S i).map Prod.snd ++ ((S.drop (1024 * i)).take 1280).map Prod.snd := by
  unfold expSeg expCutState createSegment
  simp [SEGMENT_SIZE, OVERLAP_SIZE, List.take_take]

/-- The timestamp array of emitted segment `i`. -/
theorem expSeg_ts (S : List (ℕ × ℕ)) (i : ℕ) :
    (expSeg S i).extended_timestamp_ms
      = (expOv S i).map Prod.fst ++ ((S.drop (1024 * i)).take 1280).map Prod.fst := by
  unfold expSeg expCutState createSegment
  simp [SEGMENT_SIZE, OVERLAP_SIZE, List.take_take]

/-- The core timestamps of emitted segment `i` are exactly the timestamps of
samples `[1024*i, 1024*i + 1024)`. -/
theorem expSeg_timestamp (S : List (ℕ × ℕ)) (i : ℕ) :
    (expSeg S i).timestamp_ms = ((S.drop (1024 * i)).take 1024).map Prod.fst := by
  unfold expSeg expCutState createSegment pySlice
  simp only [SEGMENT_SIZE, OVERLAP_SIZE, List.take_take, min_self, List.map_append]
  have h1 : ((expOv S i).map Prod.fst).length = (expOv S i).length :=
    List.length_map _ _
  rw [← h1, List.take_append, List.drop_left]
  rw [← List.map_take, List.take_take]
  norm_num

/-- The core start index of emitted segment `i` is the length of its leading
overlap. -/
theorem expSeg_cs (S : List (ℕ × ℕ)) (i : ℕ) :
    (expSeg S i).core_start_idx = (expOv S i).length := rfl

/-- `segment_id` of emitted segment `i`. -/
theorem expSeg_id (S : List (ℕ × ℕ)) (i : ℕ) : (expSeg S i).segment_id = i := rfl

/-- `start_time` is by construction the first core timestamp. -/
theorem expSeg_start (S : List (ℕ × ℕ)) (i : ℕ) :
    (expSeg S i).start_time = (expSeg S i).timestamp_ms.headI := rfl

/-- `end_time` is by construction the last core timestamp. -/
theorem expSeg_end (S : List (ℕ × ℕ)) (i : ℕ) :
    (expSeg S i).end_time = (expSeg S i).timestamp_ms.getLastD 0 := rfl

/-- `sample_count` is the constant `SEGMENT_SIZE`. -/
theorem expSeg_count (S : List (ℕ × ℕ)) (i : ℕ) :
    (expSeg S i).sample_count = 1024 := rfl

/-- Length of the carried overlap once a first segment exists. -/
theorem expOv_length (S : List (ℕ × ℕ)) (e : ℕ) (he : e ≠ 0)
    (h : 1024 * e + 256 ≤ S.length) : (expOv S e).length = 256 := by
  unfold expOv
  rw [if_neg he]
  simp
  omega

/-- The trailing 256 samples of the buffer slice of segment `i` are the
leading 256 of the next core. -/
theorem expSeg_trailing (S : List (ℕ × ℕ)) (i : ℕ) :
    ((S.drop (1024 * i)).take 1280).drop 1024 = (S.drop (1024 * (i + 1))).take 256 := by
  rw [List.drop_take, List.drop_drop]
  norm_num
  congr 2

/-- Indexing into the emitted list. -/
theorem range_map_getD {α : Type} (f : ℕ → α) (K i : ℕ) (d : α) (h : i < K) :
    ((List.range K).map f).getD i d = f i := by
  rw [List.getD_eq_getElem?_getD, List.getElem?_map, List.getElem?_range h]
  rfl

/-- `wEmit` on a stream of `4*K + 1` packets. -/
theorem wEmit_4K1 (K : ℕ) : wEmit (4 * K + 1) = K := by
  unfold wEmit
  omega

/-! ## Claims C2, C3, C4 -/

/-- C2 (counterexample): four 256-sample packets decode to exactly one full
1024-sample window, yet the windower emits nothing — a segment is only cut
once the buffer also holds the 256-sample trailing overlap. -/
theorem c2_exact_windows_counterexample :
    (sampleStream (List.replicate 4 zeroPkt)).length = 1 * 1024 ∧
    (runWindower (List.replicate 4 zeroPkt)).2 = [] := by decide

/-- C2 (amended): once one extra packet beyond `K` full windows has arrived
(`4*K + 1` packets in all), the windower has emitted exactly `K` windows,
with `segment_id`s `0 .. K-1` in emission order, each with exactly 1024 core
samples and with `start_time`/`end_time` the first/last core timestamp. -/
theorem c2_windowing_amended (ps : List (List ℕ)) (K : ℕ)
    (h : ∀ p ∈ ps, p.length = 1536) (hn : ps.length = 4 * K + 1) :
    ((runWindower ps).2).length = K ∧
    ∀ i, i < K →
      (((runWindower ps).2).getD i default).segment_id = i ∧
      (((runWindower ps).2).getD i default).timestamp_ms.length = 1024 ∧
      (((runWindower ps).2).getD i default).start_time
        = (((runWindower ps).2).getD i default).timestamp_ms.headI ∧
      (((runWindower ps).2).getD i default).end_time
        = (((runWindower ps).2).getD i default).timestamp_ms.getLastD 0 ∧
      (((runWindower ps).2).getD i default).sample_count = 1024 := by
  have hS : (sampleStream ps).length = 256 * ps.length := sampleStream_length ps h
  rw [windower_char ps h, hn, wEmit_4K1]
  constructor
  · simp
  · intro i hi
    rw [range_map_getD _ _ _ _ hi]
    refine ⟨expSeg_id _ i, ?_, expSeg_start _ i, expSeg_end _ i, expSeg_count _ i⟩
    rw [expSeg_timestamp, List.length_map, List.length_take, List.length_drop, hS, hn]
    omega

/-- C3 (counterexample): the first emitted window's extended array has 1280
samples, not 1536 — its leading overlap is empty (no zero-padding). -/
theorem c3_first_window_counterexample :
    (((runWindower (List.replicate 5 zeroPkt)).2).headI).extended_adc_value.length
        = 1280 ∧
    (((runWindower (List.replicate 5 zeroPkt)).2).headI).extended_adc_value.length
        ≠ 1536 := by decide

/-- C3 (amended): every emitted window except the first has an extended
array of `core + 2*overlap = 1536` samples; the first window (empty leading
overlap) has `core + overlap = 1280` samples. -/
theorem c3_extended_length_amended (ps : List (List ℕ)) (K : ℕ)
    (h : ∀ p ∈ ps, p.length = 1536) (hn : ps.length = 4 * K + 1) :
    ∀ i, i < K →
      (((runWindower ps).2).getD i default).extended_adc_value.length
        = if i = 0 then 1280 else 1536 := by
  have hS : (sampleStream ps).length = 256 * ps.length := sampleStream_length ps h
  rw [windower_char ps h, hn, wEmit_4K1]
  intro i hi
  rw [range_map_getD _ _ _ _ hi, expSeg_adc, List.length_append, List.length_map,
    List.length_map, List.length_take, List.length_drop, hS, hn]
  rcases Nat.eq_zero_or_pos i with h0 | h0
  · subst h0
    simp [expOv]
    omega
  · rw [expOv_length _ _ (by omega) (by omega)]
    rw [if_neg (by omega)]
    omega

/-- C4: within one run, the leading 256 samples of window `i+1`'s extended
arrays equal the trailing 256 samples of window `i`'s extended arrays'
core+overlap region (the part from `core_start_idx` on) — in both the adc
and the timestamp array: the overlap tail carried across the boundary is
exactly the 256 samples following window `i`'s core. -/
theorem c4_overlap_continuity (ps : List (List ℕ)) (K : ℕ)
    (h : ∀ p ∈ ps, p.length = 1536) (hn : ps.length = 4 * K + 1) :
    ∀ i, i + 1 < K →
      (((runWindower ps).2).getD (i + 1) default).extended_adc_value.take 256
        = (((runWindower ps).2).getD i default).extended_adc_value.drop
            ((((runWindower ps).2).getD i default).core_start_idx + 1024) ∧
      (((runWindower ps).2).getD (i + 1) default).extended_timestamp_ms.take 256
        = (((runWindower ps).2).getD i default).extended_timestamp_ms.drop
            ((((runWindower ps).2).getD i default).core_start_idx + 1024) := by
  have hS : (sampleStream ps).length = 256 * ps.length := sampleStream_length ps h
  rw [windower_char ps h, hn, wEmit_4K1]
  intro i hi
  rw [range_map_getD _ _ _ _ hi, range_map_getD _ _ _ _ (by omega)]
  have hovlen : (expOv (sampleStream ps) (i + 1)).length = 256 :=
    expOv_length _ _ (Nat.succ_ne_zero i) (by rw [hS, hn]; omega)
  have hovdef : expOv (sampleStream ps) (i + 1)
      = ((sampleStream ps).drop (1024 * (i + 1))).take 256 := by
    rw [expOv, if_neg (Nat.succ_ne_zero i)]
  constructor
  · rw [expSeg_adc, expSeg_adc, expSeg_cs]
    have h1 : ((expOv (sampleStream ps) (i + 1)).map Prod.snd).length = 256 := by
      rw [List.length_map, hovlen]
    rw [← h1, List.take_left]
    have h2 : (expOv (sampleStream ps) i).length
        = ((expOv (sampleStream ps) i).map Prod.snd).length :=
      (List.length_map _ _).symm
    rw [h2, List.drop_append, ← List.map_drop, expSeg_trailing, hovdef]
  · rw [expSeg_ts, expSeg_ts, expSeg_cs]
    have h1 : ((expOv (sampleStream ps) (i + 1)).map Prod.fst).length = 256 := by
      rw [List.length_map, hovlen]
    rw [← h1, List.take_left]
    have h2 : (expOv (sampleStream ps) i).length
        = ((expOv (sampleStream ps) i).map Prod.fst).length :=
      (List.length_map _ _).symm
    rw [h2, List.drop_append, ← List.map_drop, expSeg_trailing, hovdef]

/-- C2 witness: five zero packets yield exactly one emitted window. -/
theorem c2_windowing_amended_witness :
    ((runWindower (List.replicate 5 zeroPkt)).2).length = 1 :=
  (c2_windowing_amended (List.replicate 5 zeroPkt) 1 (by decide) (by decide)).1

/-- C3 witness: with nine zero packets (two windows), window 1's extended
array has 1536 samples. -/
theorem c3_extended_length_amended_witness :
    (((runWindower (List.replicate 9 zeroPkt)).2).getD 1 default).extended_adc_value.length
      = 1536 :=
  (c3_extended_length_amended (List.replicate 9 zeroPkt) 2 (by decide) (by decide) 1
    (by omega)).trans (by norm_num)

/-- C4 witness: with nine zero packets, window 1's leading overlap equals
the trailing 256 samples of window 0's core+overlap region. -/
theorem c4_overlap_continuity_witness :
    (((runWindower (List.replicate 9 zeroPkt)).2).getD 1 default).extended_adc_value.take 256
      = (((runWindower (List.replicate 9 zeroPkt)).2).getD 0 default).extended_adc_value.drop
          ((((runWindower (List.replicate 9 zeroPkt)).2).getD 0 default).core_start_idx + 1024) :=
  (c4_overlap_continuity (List.replicate 9 zeroPkt) 2 (by decide) (by decide) 0
    (by omega)).1

/-! ## Normalization (claim C5) -/

/-- `np.min`-fold over finite values computes the rational fold. -/
theorem foldl_fmin_num :
    ∀ (t : List ℚ) (a : ℚ),
      (t.map FV.num).foldl FV.fmin (FV.num a) = FV.num (t.foldl min a) := by
  intro t
  induction t with
  | nil => intro a; rfl
  | cons b t ih => intro a; simpa [FV.fmin] using ih (min a b)

/-- `np.max`-fold over finite values computes the rational fold. -/
theorem foldl_fmax_num :
    ∀ (t : List ℚ) (a : ℚ),
      (t.map FV.num).foldl FV.fmax (FV.num a) = FV.num (t.foldl max a) := by
  intro t
  induction t with
  | nil => intro a; rfl
  | cons b t ih => intro a; simpa [FV.fmax] using ih (max a b)

/-- The min-fold is a lower bound of its initial value. -/
theorem foldl_min_le_init : ∀ (t : List ℚ) (a : ℚ), t.foldl min a ≤ a := by
  intro t
  induction t with
  | nil => intro a; exact le_rfl
  | cons b t ih => intro a; exact le_trans (ih (min a b)) (min_le_left a b)

/-- The min-fold is a lower bound of every member. -/
theorem foldl_min_le_mem :
    ∀ (t : List ℚ) (a x : ℚ), x ∈ t → t.foldl min a ≤ x := by
  intro t
  induction t with
  | nil => intro a x hx; cases hx
  | cons b t ih =>
    intro a x hx
    rcases List.mem_cons.mp hx with rfl | hx
    · exact le_trans (foldl_min_le_init t (min a x)) (min_le_right a x)
    · exact ih (min a b) x hx

/-- The min-fold is attained at the initial value or at a member. -/
theorem foldl_min_choice :
    ∀ (t : List ℚ) (a : ℚ), t.foldl min a = a ∨ t.foldl min a ∈ t := by
  intro t
  induction t with
  | nil => intro a; exact Or.inl rfl
  | cons b t ih =>
    intro a
    rcases ih (min a b) with h | h
    · rcases min_choice a b with hm | hm
      · exact Or.inl (by rw [List.foldl_cons, h, hm])
      · exact Or.inr (by rw [List.foldl_cons, h, hm]; exact List.mem_cons_self b t)
    · exact Or.inr (List.mem_cons_of_mem b h)

/-- The max-fold is an upper bound of its initial value. -/
theorem foldl_init_le_max : ∀ (t : List ℚ) (a : ℚ), a ≤ t.foldl max a := by
  intro t
  induction t with
  | nil => intro a; exact le_rfl
  | cons b t ih => intro a; exact le_trans (le_max_left a b) (ih (max a b))

/-- The max-fold is an upper bound of every member. -/
theorem foldl_mem_le_max :
    ∀ (t : List ℚ) (a x : ℚ), x ∈ t → x ≤ t.foldl max a := by
  intro t
  induction t with
  | nil => intro a x hx; cases hx
  | cons b t ih =>
    intro a x hx
    rcases List.mem_cons.mp hx with rfl | hx
    · exact le_trans (le_max_right a x) (foldl_init_le_max t (max a x))
    · exact ih (max a b) x hx

/-- C5 (counterexample): on the non-constant window `[0, 1]` the normalized
maximum is `(max-min)/(max-min+ε) = 10^8/(10^8+1)`, strictly below 1 — the
claim `max(normalized) == 1 exactly` fails. -/
theorem c5_max_not_one_counterexample :
    normalizeSegment ([0, 1].map FV.num)
        = [FV.num 0, FV.num (100000000 / 100000001)] ∧
    listMaxF (normalizeSegment ([0, 1].map FV.num)) ≠ FV.num 1 := by
  have h : normalizeSegment ([0, 1].map FV.num)
      = [FV.num 0, FV.num (100000000 / 100000001)] := by
    unfold normalizeSegment listMinF listMaxF
    norm_num [FV.sub, FV.add, FV.div, FV.fmin, FV.fmax, EPS]
  refine ⟨h, ?_⟩
  rw [h]
  unfold listMaxF
  norm_num [FV.fmax]

/-- C5 (amended): min-max normalization computes
`(x - min) / (max - min + 1e-8)`.  For every nonempty window the minimum of
the output is exactly 0 and every output value lies in `[0, 1)` — the
maximum is `(max-min)/(max-min+ε) < 1`, approaching but never reaching 1 —
and for a constant window the output is the all-zero vector, well defined
because the denominator is the strictly positive ε. -/
theorem c5_normalization_amended (l : List ℚ) (hl : l ≠ []) :
    FV.num 0 ∈ normalizeSegment (l.map FV.num) ∧
    (∀ v ∈ normalizeSegment (l.map FV.num), ∃ y : ℚ, v = FV.num y ∧ 0 ≤ y ∧ y < 1) ∧
    ((∀ x ∈ l, ∀ x' ∈ l, x = x') →
      ∀ v ∈ normalizeSegment (l.map FV.num), v = FV.num 0) := by
  obtain ⟨a, t, rfl⟩ := List.exists_cons_of_ne_nil hl
  have hmnle : t.foldl min a ≤ t.foldl max a :=
    le_trans (foldl_min_le_init t a) (foldl_init_le_max t a)
  have hd : (0 : ℚ) < t.foldl max a - t.foldl min a + EPS := by
    have : (0 : ℚ) < EPS := by norm_num [EPS]
    linarith
  have hform : normalizeSegment ((a :: t).map FV.num)
      = (a :: t).map (fun x =>
          FV.num ((x - t.foldl min a) / (t.foldl max a - t.foldl min a + EPS))) := by
    unfold normalizeSegment listMinF listMaxF
    simp only [List.map_cons, List.foldl_cons]
    rw [foldl_fmin_num t a, foldl_fmax_num t a, List.map_map]
    congr 1
    · simp [FV.sub, FV.add, FV.div, hd.ne']
    · refine List.map_congr_left fun x _ => ?_
      simp [Function.comp, FV.sub, FV.add, FV.div, hd.ne']
  have hmem : t.foldl min a ∈ a :: t := by
    rcases foldl_min_choice t a with h | h
    · rw [h]; exact List.mem_cons_self a t
    · exact List.mem_cons_of_mem a h
  refine ⟨?_, ?_, ?_⟩
  · rw [hform]
    refine List.mem_map.mpr ⟨t.foldl min a, hmem, ?_⟩
    rw [sub_self, zero_div]
  · intro v hv
    rw [hform] at hv
    obtain ⟨x, hx, rfl⟩ := List.mem_map.mp hv
    refine ⟨_, rfl, ?_, ?_⟩
    · apply div_nonneg _ (le_of_lt hd)
      have : t.foldl min a ≤ x := by
        rcases List.mem_cons.mp hx with rfl | hx'
        · exact foldl_min_le_init t x
        · exact foldl_min_le_mem t a x hx'
      linarith
    · rw [div_lt_one hd]
      have : x ≤ t.foldl max a := by
        rcases List.mem_cons.mp hx with rfl | hx'
        · exact foldl_init_le_max t x
        · exact foldl_mem_le_max t a x hx'
      have hEpos : (0 : ℚ) < EPS := by norm_num [EPS]
      linarith
  · intro hconst v hv
    rw [hform] at hv
    obtain ⟨x, hx, rfl⟩ := List.mem_map.mp hv
    have hxm : x = t.foldl min a := hconst x hx _ hmem
    rw [← hxm, sub_self, zero_div]

/-- C5 witness: on the concrete window `[0, 1]`, `0` is attained. -/
theorem c5_normalization_amended_witness :
    FV.num 0 ∈ normalizeSegment ([0, 1].map FV.num) :=
  (c5_normalization_amended [0, 1] (by decide)).1

/-! ## Filter cascade structure (claim C6) -/

/-- C6: for every scipy environment and every segment, `process_segment`
is exactly this computation: design the 61.0 Hz, Q = 10.0 notch at 360 Hz
and apply it zero-phase (`filtfilt`) to the full extended array; design the
equiripple FIR over bands `[0, 150, 180, 180]` with desired `[1, 0]` and
weights `[1, 100]`, tap count rounded up to odd, and apply it zero-phase;
design the minimum-order elliptic high-pass for edges `1/180` and `1/3600`
of Nyquist with 0.5 dB ripple and 40 dB attenuation and apply it zero-phase;
then slice the core region `[core_start_idx, core_end_idx)` out of both the
filtered and the raw arrays, normalize the filtered core only, and pass the
raw core through unscaled. -/
theorem c6_filter_cascade (env : SciPyEnv) (seg : Segment) :
    processSegment env seg = do {
      let nba ← env.iirnotch 61 10 360
      let x1 ← env.filtfilt nba.1 nba.2 (seg.extended_adc_value.map FV.num)
      let b ← env.remez
        (if env.remezNumtaps 40 (1 / 6) % 2 = 0 then env.remezNumtaps 40 (1 / 6) + 1
          else env.remezNumtaps 40 (1 / 6))
        [0, 150, 180, 180] [1, 0] 360 [1, 100]
      let x2 ← env.filtfilt b [1] x1
      let nw ← env.ellipord (1 / 180) (1 / 3600) (1 / 2) 40
      let hba ← env.ellip nw.1 (1 / 2) 40 nw.2
      let x3 ← env.filtfilt hba.1 hba.2 x2
      return {
        segment_id := seg.segment_id
        timestamp_ms := seg.timestamp_ms
        start_time := seg.start_time
        end_time := seg.end_time
        raw_signal := (seg.extended_adc_value.take seg.core_end_idx).drop seg.core_start_idx
        filtered_signal := (x3.take seg.core_end_idx).drop seg.core_start_idx
        processed_signal :=
          normalizeSegment ((x3.take seg.core_end_idx).drop seg.core_start_idx)
        sample_count := seg.sample_count } } := by
  unfold processSegment applyFilteringPipeline applyNotchFilter applyFirLowpass
    applyIirHighpass pySlice
  unfold NOTCH_FREQ_HZ NOTCH_Q SAMPLE_RATE_HZ FIR_PASSBAND_HZ FIR_STOPBAND_HZ
    FIR_STOPBAND_ATTEN_DB HPF_PASSBAND_HZ HPF_STOPBAND_HZ HPF_PASSBAND_RIPPLE_DB
    HPF_STOPBAND_ATTEN_DB
  norm_num [bind_assoc]

/-! ## Filtering loop error handling (claim C7) -/

/-- C7 (amended): for every environment and input queue, the filtering loop
is total (it never crashes): it forwards, in order, exactly the segments
whose processing succeeds; a segment whose processing raises is reported
(counted) and dropped, and the loop continues with the remaining segments.
The loop performs no non-finite check, so an `ok` result is forwarded even
if it contains non-finite values. -/
theorem c7_error_drop_amended (env : SciPyEnv) (segs : List Segment) :
    (filteringLoop env segs).1
        = segs.filterMap (fun s => (processSegment env s).toOption) ∧
    (filteringLoop env segs).2
        = (segs.filter (fun s => (processSegment env s).toOption.isNone)).length := by
  have key : ∀ (ss : List Segment) (acc : List ProcessedSegment × ℕ),
      (ss.foldl (fun acc seg =>
          match processSegment env seg with
          | .ok p => (acc.1 ++ [p], acc.2)
          | .error _ => (acc.1, acc.2 + 1)) acc).1
          = acc.1 ++ ss.filterMap (fun s => (processSegment env s).toOption) ∧
      (ss.foldl (fun acc seg =>
          match processSegment env seg with
          | .ok p => (acc.1 ++ [p], acc.2)
          | .error _ => (acc.1, acc.2 + 1)) acc).2
          = acc.2 + (ss.filter (fun s => (processSegment env s).toOption.isNone)).length := by
    intro ss
    induction ss with
    | nil => intro acc; simp
    | cons s ss ih =>
      intro acc
      rcases hs : processSegment env s with e | p
      · simp only [List.foldl_cons, List.filterMap_cons, List.filter_cons, hs]
        rcases ih (acc.1, acc.2 + 1) with ⟨ih1, ih2⟩
        constructor
        · rw [ih1]
          simp [Except.toOption]
        · rw [ih2]
          simp [Except.toOption]
          omega
      · simp only [List.foldl_cons, List.filterMap_cons, List.filter_cons, hs]
        rcases ih (acc.1 ++ [p], acc.2) with ⟨ih1, ih2⟩
        constructor
        · rw [ih1]
          simp [Except.toOption]
        · rw [ih2]
          simp [Except.toOption]
  have h := key segs ([], 0)
  unfold filteringLoop
  exact ⟨by rw [h.1]; simp, by rw [h.2]; simp⟩

/-- C7 (counterexample): when zero-phase filtering silently produces a
non-finite array without raising — as with degenerate coefficients — the
loop forwards the poisoned window downstream: the forwarded window's
normalized signal contains a non-finite value. -/
theorem c7_nan_forwarded_counterexample :
    (filteringLoop envNaN [segNaN]).1.length = 1 ∧
    FV.nan ∈ ((filteringLoop envNaN [segNaN]).1.headI).processed_signal := by decide

/-! ## Safe-default inference (claim C9) -/

/-- C9: with no loaded interpreter, `run_inference` returns the safe default
classification — class 0, label `NSR`, confidence 0 — for every input, and
with an interpreter whose invocation raises it also returns the safe
default rather than propagating the failure. -/
theorem c9_safe_default :
    (∀ sig : List FV, runInference none sig = defaultPrediction) ∧
    (∀ (f : List FV → Except String (List ℚ)) (sig : List FV) (e : String),
      f sig = .error e → runInference (some f) sig = defaultPrediction) := by
  constructor
  · intro sig
    rfl
  · intro f sig e hf
    unfold runInference
    by_cases h : sig.length = 1024
    · simp [h, hf]
    · simp [h]

/-- C9 witness: a concrete failing interpreter on a concrete 1024-sample
window yields the safe default. -/
theorem c9_safe_default_witness :
    runInference (some fun _ => Except.error "model failure")
        (List.replicate 1024 (FV.num 0)) = defaultPrediction :=
  c9_safe_default.2 _ _ "model failure" rfl

/-! ## Session lifecycle in the inference loop (claim C10) -/

/-- C10: whenever a segment is dequeued while no session is active — in
particular a segment still in flight after `STOP_SESSION` closed the
previous session — the loop first opens a brand-new session named from the
current time and writes the segment into that new session's files: the
closed sessions are untouched and the segment is not dropped. -/
theorem c10_new_session_for_inflight (st : InfState) (i : ℕ)
    (h : st.active = false) :
    (stepInf st (InfEvent.seg i)).active = true ∧
    (stepInf st (InfEvent.seg i)).current = some (st.clock, [i]) ∧
    (stepInf st (InfEvent.seg i)).closed = st.closed := by
  simp [stepInf, h]

/-- C10 witness: run the loop on `[segment 5, STOP_SESSION]`, then feed the
in-flight segment 7: it lands in a fresh session (named by the later clock
tick 2) while the closed session keeps exactly its own segment. -/
theorem c10_new_session_witness :
    (stepInf (runInfLoop [InfEvent.seg 5, InfEvent.stop]) (InfEvent.seg 7)).current
        = some (2, [7]) ∧
    (stepInf (runInfLoop [InfEvent.seg 5, InfEvent.stop]) (InfEvent.seg 7)).closed
        = [(0, [5])] := by
  have h := c10_new_session_for_inflight (runInfLoop [InfEvent.seg 5, InfEvent.stop]) 7 rfl
  exact ⟨h.2.1, h.2.2⟩

end ECG
